import Mathlib

/-!
Verification of hypothesis-awkward against its specification.

The Python sources are shallowly embedded: sizes and counts are `Nat`,
strategies become nondeterministic generation predicates (one constructor or
existential per `draw`), and the mutable closure state of the budgeted drawer
becomes explicit state passing.
-/

namespace HypothesisAwkward

/-! ### CountdownDrawer — `src/hypothesis_awkward/util/draw.py` -/

/-- Modelled from the spec: `safe_min` (module `hypothesis_awkward.util.safe`
is absent from the sources).  Per the spec of the Budgeted Draw Coordinator,
`effective_max = min(max_size_each or +inf, remaining budget)`, i.e. the
minimum that ignores `None`. -/
def safeMin : Option Nat → Nat → Nat
  | none, r => r
  | some m, r => min m r

/-- Ceiling division `ceil(a / b)` of nonnegative integers, as used by
`math.ceil(a / b)` in `CountdownDrawer`. -/
def cdiv (a b : Nat) : Nat := (a + b - 1) / b

/-- Configuration arguments of `CountdownDrawer` other than `max_size_total`
(the latter only bounds the initially drawn concrete budget). -/
structure CDConfig where
  minSizeEach : Nat
  maxSizeEach : Option Nat
  minSizeTotal : Nat
  maxDraws : Nat

/-- Mutable closure state of the drawer: the concrete budget drawn on entry
(`max_size_total` after the first `draw`), plus `size_total` and `n_draws`. -/
structure CDState where
  budget : Nat
  sizeTotal : Nat
  nDraws : Nat

/-- Lower end `min_floor` of the range from which the concrete total budget is
drawn, embedding the prologue of `CountdownDrawer`. -/
def minFloor (cfg : CDConfig) : Nat :=
  if 0 < cfg.minSizeTotal then
    match cfg.maxSizeEach with
    | some m =>
        if 0 < m then max cfg.minSizeTotal (cdiv cfg.minSizeTotal m * cfg.minSizeEach)
        else max cfg.minSizeTotal cfg.minSizeEach
    | none => max cfg.minSizeTotal cfg.minSizeEach
  else 0

/-- Pair `(effective_min, max_size)` computed by the body of `_draw_content`
once past the exhaustion checks, before the final clamp
`effective_min = min(effective_min, max_size)`. -/
def cdPair (cfg : CDConfig) (s : CDState) : Nat × Nat :=
  let remaining := s.budget - s.sizeTotal
  let maxSize0 := safeMin cfg.maxSizeEach remaining
  let deficit := cfg.minSizeTotal - s.sizeTotal
  let remainingDraws := cfg.maxDraws - s.nDraws
  let neededPerDraw := cdiv deficit remainingDraws
  let effectiveMin0 := max cfg.minSizeEach neededPerDraw
  if 0 < deficit then
    if deficit ≤ maxSize0 then (max effectiveMin0 deficit, maxSize0)
    else if 0 < cfg.minSizeEach then
      let neededFuture := cdiv deficit maxSize0 - 1
      let reserve := cfg.minSizeEach * neededFuture
      let cap := remaining - reserve
      if effectiveMin0 ≤ cap then (effectiveMin0, min maxSize0 cap)
      else (effectiveMin0, maxSize0)
    else (effectiveMin0, maxSize0)
  else (effectiveMin0, maxSize0)

/-- Embedding of the prologue of `_draw_content`: `none` when the call returns
the exhaustion sentinel, otherwise the pair `(effective_min, max_size)` that is
passed to the wrapped sizeable strategy. -/
def cdBounds (cfg : CDConfig) (s : CDState) : Option (Nat × Nat) :=
  if cfg.maxDraws ≤ s.nDraws then none
  else if s.budget - s.sizeTotal = 0 ∨ s.budget - s.sizeTotal < cfg.minSizeEach then none
  else some (min (cdPair cfg s).1 (cdPair cfg s).2, (cdPair cfg s).2)

/-- State update of the epilogue of `_draw_content`: the drawn value's length
is added to `size_total` and the draw counter is incremented. -/
def cdStep (s : CDState) (len : Nat) : CDState :=
  ⟨s.budget, s.sizeTotal + len, s.nDraws + 1⟩

/-- One full call of the draw function: `len` is the length of the value the
wrapped strategy would return.  On the exhausted paths the closure state is
returned untouched, exactly as the code returns `None` before mutating its
`nonlocal` variables. -/
def cdCall (cfg : CDConfig) (s : CDState) (len : Nat) : Option Nat × CDState :=
  match cdBounds cfg s with
  | none => (none, s)
  | some _ => (some len, cdStep s len)

/-- State after a sequence of successful draws of the given lengths. -/
def cdRun (s : CDState) (ls : List Nat) : CDState := ls.foldl cdStep s

/-- Checks that each length in `ls` is a value the wrapped strategy may return
for the bounds the drawer requests at that point, i.e. that `ls` is a possible
sequence of non-`None` draw lengths from state `s`. -/
def cdValidRun (cfg : CDConfig) : CDState → List Nat → Bool
  | _, [] => true
  | s, l :: rest =>
    (match cdBounds cfg s with
     | none => false
     | some (lo, hi) => decide (lo ≤ l) && decide (l ≤ hi)) &&
    cdValidRun cfg (cdStep s l) rest

/-- C1: the claimed lower bound `sum of drawn lengths ≥ min_size_total` fails.
With `min_size_each = 3`, `max_size_each = 4`, `min_size_total = 8`,
`max_size_total = 8`, `max_draws = 4` (a satisfiable configuration: two draws
of length 4 reach the minimum), the concrete budget 8 is drawn, the wrapped
strategy legally returns lengths 3 and then 4, and the drawer then reports
exhaustion permanently with a total of 7 < 8. -/
theorem countdown_min_size_total_violated :
    minFloor ⟨3, some 4, 8, 4⟩ ≤ 8 ∧
    cdValidRun ⟨3, some 4, 8, 4⟩ ⟨8, 0, 0⟩ [3, 4] = true ∧
    ((cdRun ⟨8, 0, 0⟩ [3, 4]).sizeTotal = 7 ∧
      cdBounds ⟨3, some 4, 8, 4⟩ (cdRun ⟨8, 0, 0⟩ [3, 4]) = none) ∧
    ¬ (⟨3, some 4, 8, 4⟩ : CDConfig).minSizeTotal ≤ (cdRun ⟨8, 0, 0⟩ [3, 4]).sizeTotal := by
  decide

/-- C10: exhaustion is permanent.  A call that returns the sentinel `none`
leaves `size_total` and `n_draws` (and the budget) unchanged, and every
subsequent call on the resulting state also returns `none` with the state
still unchanged. -/
theorem countdown_exhaustion_permanent (cfg : CDConfig) (s : CDState) (len : Nat)
    (h : (cdCall cfg s len).1 = none) :
    (cdCall cfg s len).2 = s ∧ ∀ len2, cdCall cfg (cdCall cfg s len).2 len2 = (none, s) := by
  have hb : cdBounds cfg s = none := by
    by_contra hne
    rcases Option.ne_none_iff_exists.mp hne with ⟨p, hp⟩
    simp [cdCall, ← hp] at h
  constructor
  · simp [cdCall, hb]
  · intro len2
    simp [cdCall, hb]

/-- Witness for C10 at a concrete exhausted state (`max_draws = 0`). -/
theorem countdown_exhaustion_permanent_witness :
    (cdCall ⟨0, none, 0, 0⟩ ⟨5, 0, 0⟩ 1).1 = none ∧
      ((cdCall ⟨0, none, 0, 0⟩ ⟨5, 0, 0⟩ 1).2 = ⟨5, 0, 0⟩ ∧
        ∀ len2, cdCall ⟨0, none, 0, 0⟩ (cdCall ⟨0, none, 0, 0⟩ ⟨5, 0, 0⟩ 1).2 len2 =
          (none, ⟨5, 0, 0⟩)) :=
  ⟨by decide, countdown_exhaustion_permanent ⟨0, none, 0, 0⟩ ⟨5, 0, 0⟩ 1 (by decide)⟩

/-! ### Content model — `awkward.contents` node shapes used by the generators -/

/-- Shapes of the Awkward content nodes the generators build.  A string or
bytestring leaf is a `ListOffsetArray` whose `isStr` flag records the
`parameters={'__array__': 'string'/'bytestring'}` tag that makes it a leaf for
size and depth accounting. -/
inductive Content where
  | numpyLeaf (len : Nat)
  | emptyLeaf
  | listOffset (isStr : Bool) (offsets : List Nat) (child : Content)
  | regular (child : Content) (size : Nat) (zerosLength : Nat)
  | listArray (starts stops : List Nat) (child : Content)
deriving DecidableEq

/-- Outer length of a content node (`len()` in Awkward): buffer length for
NumpyArray, 0 for EmptyArray, `len(offsets) - 1` for ListOffsetArray,
`zeros_length` or `len(child) // size` for RegularArray, and `len(starts)`
for ListArray. -/
def Content.length : Content → Nat
  | .numpyLeaf n => n
  | .emptyLeaf => 0
  | .listOffset _ offsets _ => offsets.length - 1
  | .regular child size zerosLength => if size = 0 then zerosLength else child.length / size
  | .listArray starts _ _ => starts.length

/-- Total leaf element count of a tree: NumpyArray elements count one each,
each string/bytestring (not character/byte) counts one, EmptyArray counts 0,
and wrappers contribute nothing of their own. -/
def Content.leafCount : Content → Nat
  | .numpyLeaf n => n
  | .emptyLeaf => 0
  | .listOffset isStr offsets child => if isStr then offsets.length - 1 else child.leafCount
  | .regular child _ _ => child.leafCount
  | .listArray _ _ child => child.leafCount

/-- Number of structural wrapper layers on the deepest root-to-leaf path.  The
ListOffsetArray layer that is internal to a string/bytestring leaf does not
count. -/
def Content.wrapperDepth : Content → Nat
  | .numpyLeaf _ => 0
  | .emptyLeaf => 0
  | .listOffset isStr _ child => if isStr then 0 else child.wrapperDepth + 1
  | .regular child _ _ => child.wrapperDepth + 1
  | .listArray _ _ child => child.wrapperDepth + 1

/-! ### Leaf content generators — `strategies/contents/{leaf,string,numpy_array}.py` -/

/-- Offsets buffer built by `string_contents`: a running sum of the encoded
byte lengths, starting at 0 (`offsets[i+1] = offsets[i] + len(b)`). -/
def stringOffsets (byteLens : List Nat) : List Nat := byteLens.scanl (· + ·) 0

/-- String (or bytestring) content node built by `string_contents` from the
encoded byte lengths of the drawn strings: a ListOffsetArray tagged as a
string, wrapping a `uint8` NumpyArray holding all bytes. -/
def stringContent (byteLens : List Nat) : Content :=
  .listOffset true (stringOffsets byteLens) (.numpyLeaf byteLens.sum)

/-- Flags of `leaf_contents` selecting which leaf kinds may be produced. -/
structure LeafOpts where
  allowNumpy : Bool
  allowEmpty : Bool
  allowString : Bool
  allowBytestring : Bool

/-- Possible results of one draw from `leaf_contents(min_size, max_size, ...)`.

The NumpyArray case is modelled from the spec for its length: the sized
`numpy_arrays` strategy invoked by `numpy_array_contents` (with `max_dims=1`,
`min_size`, `max_size`) is absent from the sources; per the spec it "produces
a NumpyLeaf of length in [min_size, max_size]".  The bytestring case is
modelled from the spec as well (`bytestring_contents` is absent): like
`string_contents`, it draws N byte values with N in [min_size, max_size] and
concatenates them behind a running-sum offsets buffer.  `empty_array_contents`
(also absent) always produces the length-0 `EmptyArray` and is only offered
when `min_size == 0`. -/
inductive LeafContentsGen (opts : LeafOpts) (minSize maxSize : Nat) : Content → Prop
  | numpy (n : Nat) : opts.allowNumpy = true → minSize ≤ n → n ≤ maxSize →
      LeafContentsGen opts minSize maxSize (.numpyLeaf n)
  | empty : opts.allowEmpty = true → minSize = 0 →
      LeafContentsGen opts minSize maxSize .emptyLeaf
  | str (byteLens : List Nat) : opts.allowString = true →
      minSize ≤ byteLens.length → byteLens.length ≤ maxSize →
      LeafContentsGen opts minSize maxSize (stringContent byteLens)
  | bytestr (byteLens : List Nat) : opts.allowBytestring = true →
      minSize ≤ byteLens.length → byteLens.length ≤ maxSize →
      LeafContentsGen opts minSize maxSize (stringContent byteLens)

theorem stringContent_length (byteLens : List Nat) :
    (stringContent byteLens).length = byteLens.length := by
  simp [stringContent, Content.length, stringOffsets, List.length_scanl]

theorem leafContentsGen_leafCount_eq_length {opts : LeafOpts} {minSize maxSize : Nat}
    {t : Content} (h : LeafContentsGen opts minSize maxSize t) : t.leafCount = t.length := by
  cases h <;> simp [Content.leafCount, Content.length, stringContent]

theorem leafContentsGen_wrapperDepth {opts : LeafOpts} {minSize maxSize : Nat}
    {t : Content} (h : LeafContentsGen opts minSize maxSize t) : t.wrapperDepth = 0 := by
  cases h <;> simp [Content.wrapperDepth, stringContent]

theorem leafContentsGen_length_bounds {opts : LeafOpts} {minSize maxSize : Nat}
    {t : Content} (h : LeafContentsGen opts minSize maxSize t) :
    minSize ≤ t.length ∧ t.length ≤ maxSize := by
  cases h with
  | numpy n hn h1 h2 => exact ⟨h1, h2⟩
  | empty he h0 => subst h0; simp [Content.length]
  | str bs hs h1 h2 => rw [stringContent_length]; exact ⟨h1, h2⟩
  | bytestr bs hs h1 h2 => rw [stringContent_length]; exact ⟨h1, h2⟩

/-- C3: every leaf content generated by `leaf_contents(min_size, max_size)` —
NumpyArray, EmptyArray, string, or bytestring — has an outer length in
`[min_size, max_size]`; in particular a generated NumpyArray's element count
lies in that interval. -/
theorem leaf_contents_length_in_bounds {opts : LeafOpts} {minSize maxSize : Nat}
    {t : Content} (h : LeafContentsGen opts minSize maxSize t) :
    minSize ≤ t.length ∧ t.length ≤ maxSize :=
  leafContentsGen_length_bounds h

/-- Witness for C3: a string leaf of one string with five bytes, drawn with
`min_size = 1`, `max_size = 2`. -/
theorem leaf_contents_length_in_bounds_witness :
    LeafContentsGen ⟨true, true, true, true⟩ 1 2 (stringContent [5]) ∧
      1 ≤ (stringContent [5]).length ∧ (stringContent [5]).length ≤ 2 :=
  have h : LeafContentsGen ⟨true, true, true, true⟩ 1 2 (stringContent [5]) :=
    .str [5] (by decide) (by decide) (by decide)
  ⟨h, leaf_contents_length_in_bounds h⟩

/-! ### List wrappers — `strategies/contents/list_offset_array.py` and
`strategies/constructors/arrays_.py` (`_list_array_contents`) -/

/-- Offsets list built by `list_offset_array_contents` and
`_list_array_contents`: `[0]` for zero groups, all zeros over an empty child,
and otherwise `[0, *sorted(splits), content_len]`. -/
def offsetsFrom (contentLen n : Nat) (splits : List Nat) : List Nat :=
  if n = 0 then [0]
  else if contentLen = 0 then List.replicate (n + 1) 0
  else 0 :: (splits ++ [contentLen])

/-- Possible results of `list_offset_array_contents(content, max_length)` over
the concrete child `c`; the index `n` is the drawn group count.  The drawn
split points are quantified after sorting (each draw is sorted, and every
sorted list in range is its own sort). -/
inductive ListOffsetGen (maxLength : Nat) (c : Content) : Nat → Content → Prop
  | mk (n : Nat) (splits : List Nat) :
      n ≤ maxLength →
      splits.length = n - 1 →
      splits.Sorted (· ≤ ·) →
      (∀ x ∈ splits, x ≤ c.length) →
      ListOffsetGen maxLength c n (.listOffset false (offsetsFrom c.length n splits) c)

/-- Possible results of the ListArray generator over the concrete child `c`:
`_list_array_contents` builds the same offsets and stores
`starts = offsets[:-1]`, `stops = offsets[1:]`.  The `list_array_contents`
of the contents package is absent from the sources and is modelled from the
spec, which states it uses the identical partition algorithm. -/
inductive ListArrayGen (maxLength : Nat) (c : Content) : Nat → Content → Prop
  | mk (n : Nat) (splits : List Nat) :
      n ≤ maxLength →
      splits.length = n - 1 →
      splits.Sorted (· ≤ ·) →
      (∀ x ∈ splits, x ≤ c.length) →
      ListArrayGen maxLength c n
        (.listArray (offsetsFrom c.length n splits).dropLast
          (offsetsFrom c.length n splits).tail c)

/-- Invariants of an offsets buffer over a child of length `childLen`:
non-decreasing, first entry 0, last entry at most the child length. -/
def OffsetsOK (offsets : List Nat) (childLen : Nat) : Prop :=
  offsets.Sorted (· ≤ ·) ∧ offsets.headI = 0 ∧ offsets.getLastD 0 ≤ childLen

theorem offsetsFrom_length (contentLen n : Nat) (splits : List Nat)
    (hlen : splits.length = n - 1) : (offsetsFrom contentLen n splits).length = n + 1 := by
  unfold offsetsFrom
  split
  · simp only [List.length_singleton]; omega
  · split
    · simp
    · simp only [List.length_cons, List.length_append, List.length_singleton,
        List.length_nil]
      omega

theorem offsetsFrom_mem_le (contentLen n : Nat) (splits : List Nat)
    (hb : ∀ x ∈ splits, x ≤ contentLen) :
    ∀ x ∈ offsetsFrom contentLen n splits, x ≤ contentLen := by
  unfold offsetsFrom
  split
  · simp
  · split
    · intro x hx
      have := List.eq_of_mem_replicate hx
      omega
    · intro x hx
      rcases List.mem_cons.mp hx with h0 | hx2
      · omega
      · rcases List.mem_append.mp hx2 with hs | hl
        · exact hb x hs
        · simp at hl; omega

theorem offsetsFrom_sorted (contentLen n : Nat) (splits : List Nat)
    (hs : splits.Sorted (· ≤ ·)) (hb : ∀ x ∈ splits, x ≤ contentLen) :
    (offsetsFrom contentLen n splits).Sorted (· ≤ ·) := by
  unfold offsetsFrom
  split
  · simp
  · split
    · exact List.pairwise_replicate.2 (Or.inr (le_refl 0))
    · rw [List.sorted_cons]
      refine ⟨fun b _ => Nat.zero_le b, ?_⟩
      rw [List.Sorted, List.pairwise_append]
      exact ⟨hs, List.sorted_singleton contentLen, fun a ha b hb2 => by
        simp at hb2; subst hb2; exact hb a ha⟩

theorem offsetsFrom_ok (contentLen n : Nat) (splits : List Nat)
    (hlen : splits.length = n - 1) (hs : splits.Sorted (· ≤ ·))
    (hb : ∀ x ∈ splits, x ≤ contentLen) :
    OffsetsOK (offsetsFrom contentLen n splits) contentLen := by
  refine ⟨offsetsFrom_sorted contentLen n splits hs hb, ?_, ?_⟩
  · unfold offsetsFrom
    split
    · rfl
    · split
      · simp [List.replicate_succ]
      · rfl
  · have hne : offsetsFrom contentLen n splits ≠ [] := by
      have := offsetsFrom_length contentLen n splits hlen
      intro hnil
      rw [hnil] at this
      simp at this
    have hmem : (offsetsFrom contentLen n splits).getLastD 0 ∈ offsetsFrom contentLen n splits := by
      cases hof : offsetsFrom contentLen n splits with
      | nil => exact absurd hof hne
      | cons a l =>
        rw [List.getLastD_eq_getLast?, List.getLast?_eq_getLast _ (by simp)]
        simp [List.getLast_mem]
    exact offsetsFrom_mem_le contentLen n splits hb _ hmem

/-- C6: every ListOffsetArray produced by `list_offset_array_contents`, and
every starts/stops pair produced by the ListArray generator read as offsets,
is non-decreasing, starts at 0, ends at most at the child length, and the
wrapper's outer length equals the drawn group count `n` with `n ≤ max_length`. -/
theorem list_wrappers_offsets_ok {maxLength n : Nat} {c t : Content} :
    (ListOffsetGen maxLength c n t →
      ∃ offsets, t = .listOffset false offsets c ∧ OffsetsOK offsets c.length ∧
        t.length = n ∧ n ≤ maxLength) ∧
    (ListArrayGen maxLength c n t →
      ∃ offsets, t = .listArray offsets.dropLast offsets.tail c ∧
        OffsetsOK offsets c.length ∧ t.length = n ∧ n ≤ maxLength) := by
  constructor
  · intro h
    cases h with
    | mk splits hn hlen hs hb =>
      refine ⟨offsetsFrom c.length n splits, rfl, offsetsFrom_ok _ _ _ hlen hs hb, ?_, hn⟩
      have := offsetsFrom_length c.length n splits hlen
      simp [Content.length, this]
  · intro h
    cases h with
    | mk splits hn hlen hs hb =>
      refine ⟨offsetsFrom c.length n splits, rfl, offsetsFrom_ok _ _ _ hlen hs hb, ?_, hn⟩
      have := offsetsFrom_length c.length n splits hlen
      simp [Content.length, List.length_dropLast, this]

/-- Witness for C6: group count 2 with one split point over a NumpyArray child
of length 3, for both list wrapper generators. -/
theorem list_wrappers_offsets_ok_witness :
    (ListOffsetGen 5 (.numpyLeaf 3) 2
        (.listOffset false (offsetsFrom 3 2 [1]) (.numpyLeaf 3)) ∧
      ∃ offsets, (Content.listOffset false (offsetsFrom 3 2 [1]) (.numpyLeaf 3)) =
          .listOffset false offsets (.numpyLeaf 3) ∧
        OffsetsOK offsets (Content.numpyLeaf 3).length ∧
        (Content.listOffset false (offsetsFrom 3 2 [1]) (.numpyLeaf 3)).length = 2 ∧ 2 ≤ 5) ∧
    (ListArrayGen 5 (.numpyLeaf 3) 2
        (.listArray (offsetsFrom 3 2 [1]).dropLast (offsetsFrom 3 2 [1]).tail (.numpyLeaf 3)) ∧
      ∃ offsets, (Content.listArray (offsetsFrom 3 2 [1]).dropLast (offsetsFrom 3 2 [1]).tail
          (.numpyLeaf 3)) = .listArray offsets.dropLast offsets.tail (.numpyLeaf 3) ∧
        OffsetsOK offsets (Content.numpyLeaf 3).length ∧
        (Content.listArray (offsetsFrom 3 2 [1]).dropLast (offsetsFrom 3 2 [1]).tail
          (.numpyLeaf 3)).length = 2 ∧ 2 ≤ 5) :=
  have ho : ListOffsetGen 5 (.numpyLeaf 3) 2
      (.listOffset false (offsetsFrom 3 2 [1]) (.numpyLeaf 3)) :=
    .mk 2 [1] (by decide) (by decide) (by simp) (by decide)
  have ha : ListArrayGen 5 (.numpyLeaf 3) 2
      (.listArray (offsetsFrom 3 2 [1]).dropLast (offsetsFrom 3 2 [1]).tail (.numpyLeaf 3)) :=
    .mk 2 [1] (by decide) (by decide) (by simp) (by decide)
  ⟨⟨ho, list_wrappers_offsets_ok.1 ho⟩, ⟨ha, list_wrappers_offsets_ok.2 ha⟩⟩

/-! ### RegularArray wrapper — `strategies/contents/regular_array.py` -/

/-- Values the strategy `_st_group_sizes(total_items, max_group_size)` can
produce: any size in `[0, max_group_size]` when the child is empty; otherwise
the divisors of `total_items` in `[1, min(total_items, max_group_size)]`, or
the single value 0 when there is no such divisor. -/
def groupSizeChoices (totalItems maxGroupSize : Nat) : List Nat :=
  if totalItems = 0 then List.range (maxGroupSize + 1)
  else
    let m := min totalItems maxGroupSize
    let divisors := (List.range' 1 m).filter (fun d => totalItems % d = 0)
    if divisors = [] then [0] else divisors

/-- Possible results of `regular_array_contents(content, max_size,
max_zeros_length)` over the concrete child `c`: a size drawn from
`_st_group_sizes`; when it is 0, a `zeros_length` in `[0, max_zeros_length]`
is drawn as well (RegularArray's `zeros_length` argument defaults to 0 and is
unused when the size is positive). -/
inductive RegularGen (maxSize maxZerosLength : Nat) (c : Content) : Content → Prop
  | zeroSize (z : Nat) : 0 ∈ groupSizeChoices c.length maxSize → z ≤ maxZerosLength →
      RegularGen maxSize maxZerosLength c (.regular c 0 z)
  | posSize (size : Nat) : size ∈ groupSizeChoices c.length maxSize → size ≠ 0 →
      RegularGen maxSize maxZerosLength c (.regular c size 0)

/-- Lengths of the elements of a RegularArray node: `length` many groups of
`size` items each (each element of a size-0 RegularArray is empty). -/
def regularElementLengths : Content → List Nat
  | .regular child size zerosLength =>
      List.replicate (Content.length (.regular child size zerosLength)) size
  | _ => []

theorem groupSizeChoices_pos_divides {totalItems maxGroupSize size : Nat}
    (hpos : totalItems ≠ 0) (hmem : size ∈ groupSizeChoices totalItems maxGroupSize)
    (hsz : size ≠ 0) : totalItems % size = 0 ∧ size ≤ maxGroupSize := by
  unfold groupSizeChoices at hmem
  rw [if_neg hpos] at hmem
  by_cases hdiv : (List.range' 1 (min totalItems maxGroupSize)).filter
      (fun d => totalItems % d = 0) = []
  · simp only [hdiv, if_pos] at hmem
    simp at hmem
    exact absurd hmem hsz
  · simp only [hdiv, if_neg, ite_false] at hmem
    have h2 := List.of_mem_filter hmem
    have h1 := List.mem_of_mem_filter hmem
    rw [List.mem_range'_1] at h1
    simp at h2
    exact ⟨h2, by omega⟩

theorem groupSizeChoices_no_divisor {totalItems maxGroupSize : Nat}
    (hpos : totalItems ≠ 0)
    (hnodiv : ∀ d, 1 ≤ d → d ≤ maxGroupSize → totalItems % d ≠ 0) :
    groupSizeChoices totalItems maxGroupSize = [0] := by
  unfold groupSizeChoices
  rw [if_neg hpos]
  have hdiv : (List.range' 1 (min totalItems maxGroupSize)).filter
      (fun d => totalItems % d = 0) = [] := by
    rw [List.filter_eq_nil_iff]
    intro d hd
    rw [List.mem_range'_1] at hd
    simp only [decide_eq_true_eq]
    exact hnodiv d hd.1 (by omega)
  simp [hdiv]

/-- C7: every RegularArray produced by `regular_array_contents` over a child
of positive length with a positive chosen size has a size that divides the
child length and is at most `max_size`; and when no divisor of the child
length lies in `[1, max_size]`, the result is the size-0 form with a
`zeros_length` in `[0, max_zeros_length]` whose every element is empty. -/
theorem regular_array_contents_ok {maxSize maxZerosLength : Nat} {c t : Content}
    (hgen : RegularGen maxSize maxZerosLength c t) (hc : c.length ≠ 0) :
    (∀ size z, t = .regular c size z → size ≠ 0 →
      c.length % size = 0 ∧ size ≤ maxSize) ∧
    ((∀ d, 1 ≤ d → d ≤ maxSize → c.length % d ≠ 0) →
      ∃ z, t = .regular c 0 z ∧ z ≤ maxZerosLength ∧
        ∀ l ∈ regularElementLengths t, l = 0) := by
  constructor
  · intro size z ht hsz
    cases hgen with
    | zeroSize z2 hmem hz =>
      injection ht with h1 h2 h3
      exact absurd h2.symm hsz
    | posSize size2 hmem hsz2 =>
      cases ht
      exact groupSizeChoices_pos_divides hc hmem hsz
  · intro hnodiv
    cases hgen with
    | zeroSize z hmem hz =>
      exact ⟨z, rfl, hz, fun l hl => List.eq_of_mem_replicate hl⟩
    | posSize size hmem hsz =>
      rw [groupSizeChoices_no_divisor hc hnodiv] at hmem
      simp at hmem
      exact absurd hmem hsz

/-- Witness for C7: child of length 6, `max_size = 4`, chosen size 2 divides 6;
and for a child of length 7 with `max_size = 0` no divisor exists, so only
the size-0 form arises. -/
theorem regular_array_contents_ok_witness :
    (RegularGen 4 5 (.numpyLeaf 6) (.regular (.numpyLeaf 6) 2 0) ∧
      (∀ size z, (Content.regular (.numpyLeaf 6) 2 0) = .regular (.numpyLeaf 6) size z →
        size ≠ 0 → (Content.numpyLeaf 6).length % size = 0 ∧ size ≤ 4)) ∧
    (RegularGen 0 5 (.numpyLeaf 7) (.regular (.numpyLeaf 7) 0 3) ∧
      ∃ z, (Content.regular (.numpyLeaf 7) 0 3) = .regular (.numpyLeaf 7) 0 z ∧
        z ≤ 5 ∧ ∀ l ∈ regularElementLengths (.regular (.numpyLeaf 7) 0 3), l = 0) :=
  have h6 : RegularGen 4 5 (.numpyLeaf 6) (.regular (.numpyLeaf 6) 2 0) :=
    .posSize 2 (by decide) (by decide)
  have h7 : RegularGen 0 5 (.numpyLeaf 7) (.regular (.numpyLeaf 7) 0 3) :=
    .zeroSize 3 (by decide) (by decide)
  ⟨⟨h6, (regular_array_contents_ok h6 (by decide)).1⟩,
    ⟨h7, (regular_array_contents_ok h7 (by decide)).2 (by decide)⟩⟩

/-! ### Recursive content builder — `strategies/contents/content.py` -/

/-- Keyword arguments of `contents()`. -/
structure ContentsOpts where
  maxSize : Nat
  allowNumpy : Bool
  allowEmpty : Bool
  allowString : Bool
  allowBytestring : Bool
  allowRegular : Bool
  allowListOffset : Bool
  allowList : Bool
  maxDepth : Nat

/-- Leaf flags forwarded by `contents()` to `leaf_contents` via
`functools.partial`. -/
def ContentsOpts.leafOpts (o : ContentsOpts) : LeafOpts :=
  ⟨o.allowNumpy, o.allowEmpty, o.allowString, o.allowBytestring⟩

/-- Whether the `wrappers` dict built by `contents()` is non-empty. -/
def ContentsOpts.wrappersEnabled (o : ContentsOpts) : Bool :=
  o.allowRegular || o.allowListOffset || o.allowList

/-- The `CountdownDrawer` configuration used by `contents()`: all arguments
left at their defaults (`min_size_each=0`, `max_size_each=None`,
`min_size_total=0`, `max_draws=100`) with `max_size_total=max_size`. -/
def contentsCDConfig : CDConfig := ⟨0, none, 0, 100⟩

/-- Possible results of drawing one enabled wrapper around the child `c`, as
`_build` does via `draw(wrappers[node_type](st.just(child)))`.  The wrapper
strategies are called with their default bounds (`max_size=5`,
`max_zeros_length=5`, `max_length=5`).  The `list` entry (the contents-package
`list_array_contents`, absent from the sources) is modelled from the spec as
the StartStopList generator with the identical partition algorithm. -/
inductive WrapGen (o : ContentsOpts) (c : Content) : Content → Prop
  | regular {t : Content} : o.allowRegular = true → RegularGen 5 5 c t → WrapGen o c t
  | listOffset {n : Nat} {t : Content} : o.allowListOffset = true →
      ListOffsetGen 5 c n t → WrapGen o c t
  | listArr {n : Nat} {t : Content} : o.allowList = true →
      ListArrayGen 5 c n t → WrapGen o c t

/-- Possible runs of `_build(depth)` from budget state `s`, producing a tree
and the final budget state.  A leaf is either a non-`None` coordinator draw
(whose length is deducted from the budget) or, on exhaustion, the zero-size
fallback draw `st_leaf(min_size=0, max_size=0)`; below `max_depth` the coin
flip may instead descend, build the child first, and wrap it (the wrapper
draws consume no budget). -/
inductive BuildR (o : ContentsOpts) : Nat → CDState → Content → CDState → Prop
  | leafDrawn {d : Nat} {s : CDState} {lo hi : Nat} {t : Content} :
      cdBounds contentsCDConfig s = some (lo, hi) →
      LeafContentsGen o.leafOpts lo hi t →
      BuildR o d s t (cdStep s t.length)
  | leafFallback {d : Nat} {s : CDState} {t : Content} :
      cdBounds contentsCDConfig s = none →
      LeafContentsGen o.leafOpts 0 0 t →
      BuildR o d s t s
  | wrap {d : Nat} {s s2 : CDState} {c t : Content} :
      d < o.maxDepth →
      BuildR o (d + 1) s c s2 →
      WrapGen o c t →
      BuildR o d s t s2

/-- Possible results of one draw from `contents()`: when no wrapper kind is
enabled or `max_size == 0`, a single direct leaf draw with bounds
`[0, max_size]`; otherwise a `_build(0)` run whose concrete budget `B` was
drawn from `[min_floor, max_size]`. -/
inductive ContentsGen (o : ContentsOpts) : Content → Prop
  | bypass {t : Content} : (o.wrappersEnabled = false ∨ o.maxSize = 0) →
      LeafContentsGen o.leafOpts 0 o.maxSize t →
      ContentsGen o t
  | build {B : Nat} {t : Content} {s2 : CDState} :
      o.wrappersEnabled = true → o.maxSize ≠ 0 →
      minFloor contentsCDConfig ≤ B → B ≤ o.maxSize →
      BuildR o 0 ⟨B, 0, 0⟩ t s2 →
      ContentsGen o t

theorem safeMin_le (mo : Option Nat) (r : Nat) : safeMin mo r ≤ r := by
  cases mo with
  | none => exact le_refl r
  | some m => exact min_le_right m r

theorem cdPair_snd_le (cfg : CDConfig) (s : CDState) :
    (cdPair cfg s).2 ≤ s.budget - s.sizeTotal := by
  have hsm := safeMin_le cfg.maxSizeEach (s.budget - s.sizeTotal)
  simp only [cdPair]
  split_ifs <;> simp only <;> omega

theorem cdBounds_hi_le_remaining {cfg : CDConfig} {s : CDState} {lo hi : Nat}
    (h : cdBounds cfg s = some (lo, hi)) : hi ≤ s.budget - s.sizeTotal := by
  unfold cdBounds at h
  split at h
  · exact absurd h (by simp)
  · split at h
    · exact absurd h (by simp)
    · simp only [Option.some.injEq, Prod.mk.injEq] at h
      have hhi := h.2
      subst hhi
      exact cdPair_snd_le cfg s

theorem wrapGen_leafCount {o : ContentsOpts} {c t : Content} (h : WrapGen o c t) :
    t.leafCount = c.leafCount := by
  cases h with
  | regular ha hg => cases hg <;> simp [Content.leafCount]
  | listOffset ha hg => cases hg; simp [Content.leafCount]
  | listArr ha hg => cases hg; simp [Content.leafCount]

theorem wrapGen_wrapperDepth {o : ContentsOpts} {c t : Content} (h : WrapGen o c t) :
    t.wrapperDepth = c.wrapperDepth + 1 := by
  cases h with
  | regular ha hg => cases hg <;> simp [Content.wrapperDepth]
  | listOffset ha hg => cases hg; simp [Content.wrapperDepth]
  | listArr ha hg => cases hg; simp [Content.wrapperDepth]

theorem buildR_budget_and_size {o : ContentsOpts} {d : Nat} {s : CDState} {t : Content}
    {s2 : CDState} (h : BuildR o d s t s2) :
    s2.budget = s.budget ∧ s2.sizeTotal = s.sizeTotal + t.leafCount ∧
      (s.sizeTotal ≤ s.budget → s2.sizeTotal ≤ s.budget) := by
  induction h with
  | leafDrawn hb hleaf =>
    rename_i d s lo hi t
    have hcount := leafContentsGen_leafCount_eq_length hleaf
    have hlen := (leafContentsGen_length_bounds hleaf).2
    have hrem := cdBounds_hi_le_remaining hb
    refine ⟨rfl, by simp [cdStep, hcount], fun hle => ?_⟩
    simp only [cdStep]
    omega
  | leafFallback hb hleaf =>
    have hcount := leafContentsGen_leafCount_eq_length hleaf
    have hlen := (leafContentsGen_length_bounds hleaf).2
    exact ⟨rfl, by omega, fun hle => hle⟩
  | wrap hd hchild hwrap ih =>
    have hcount := wrapGen_leafCount hwrap
    exact ⟨ih.1, by omega, ih.2.2⟩

theorem buildR_wrapperDepth {o : ContentsOpts} {d : Nat} {s : CDState} {t : Content}
    {s2 : CDState} (h : BuildR o d s t s2) :
    t.wrapperDepth + d ≤ max o.maxDepth d := by
  induction h with
  | leafDrawn hb hleaf =>
    have := leafContentsGen_wrapperDepth hleaf
    omega
  | leafFallback hb hleaf =>
    have := leafContentsGen_wrapperDepth hleaf
    omega
  | wrap hd hchild hwrap ih =>
    have := wrapGen_wrapperDepth hwrap
    omega

/-- C2: the total leaf element count of every content tree generated by
`contents(max_size)` — NumpyArray elements plus one per string/bytestring,
EmptyArray contributing 0, over all leaf nodes — never exceeds `max_size`;
in particular with `max_size = 0` it is exactly 0. -/
theorem contents_leaf_count_le_max_size {o : ContentsOpts} {t : Content}
    (h : ContentsGen o t) :
    t.leafCount ≤ o.maxSize ∧ (o.maxSize = 0 → t.leafCount = 0) := by
  have hle : t.leafCount ≤ o.maxSize := by
    cases h with
    | bypass hcase hleaf =>
      have hcount := leafContentsGen_leafCount_eq_length hleaf
      have hlen := (leafContentsGen_length_bounds hleaf).2
      omega
    | build hw hnz hfloor hB hbuild =>
      rename_i B s2
      obtain ⟨hbudget, hsize, hle2⟩ := buildR_budget_and_size hbuild
      have h1 : s2.sizeTotal = 0 + t.leafCount := hsize
      have h2 : s2.sizeTotal ≤ B := hle2 (Nat.zero_le B)
      omega
  exact ⟨hle, fun h0 => by omega⟩

/-- Witness for C2: `contents()` with all defaults (`max_size = 10`) drawing
the budget 10 and a single NumpyArray leaf of two elements. -/
theorem contents_leaf_count_le_max_size_witness :
    ContentsGen ⟨10, true, true, true, true, true, true, true, 5⟩ (.numpyLeaf 2) ∧
      (Content.numpyLeaf 2).leafCount ≤ 10 ∧
      ((10 : Nat) = 0 → (Content.numpyLeaf 2).leafCount = 0) :=
  have hleaf : LeafContentsGen
      (ContentsOpts.leafOpts ⟨10, true, true, true, true, true, true, true, 5⟩) 0 10
      (.numpyLeaf 2) := .numpy 2 (by decide) (by decide) (by decide)
  have hb : BuildR ⟨10, true, true, true, true, true, true, true, 5⟩ 0 ⟨10, 0, 0⟩
      (.numpyLeaf 2) (cdStep ⟨10, 0, 0⟩ (Content.numpyLeaf 2).length) :=
    @BuildR.leafDrawn ⟨10, true, true, true, true, true, true, true, 5⟩ 0 ⟨10, 0, 0⟩ 0 10
      (.numpyLeaf 2) (by decide) hleaf
  have hgen : ContentsGen ⟨10, true, true, true, true, true, true, true, 5⟩ (.numpyLeaf 2) :=
    .build (by decide) (by decide) (by decide) (by decide) hb
  ⟨hgen, contents_leaf_count_le_max_size hgen⟩

/-- C5: every content tree generated by `contents(max_depth)` has at most
`max_depth` structural wrapper layers (RegularArray, ListOffsetArray,
ListArray) on any root-to-leaf path, the ListOffsetArray layer internal to a
string/bytestring leaf not counting. -/
theorem contents_wrapper_depth_le_max_depth {o : ContentsOpts} {t : Content}
    (h : ContentsGen o t) : t.wrapperDepth ≤ o.maxDepth := by
  cases h with
  | bypass hcase hleaf =>
    have := leafContentsGen_wrapperDepth hleaf
    omega
  | build hw hnz hfloor hB hbuild =>
    have := buildR_wrapperDepth hbuild
    omega

/-- Witness for C5: `contents` options with only the ListOffsetArray wrapper
enabled and `max_depth = 1`, generating one wrapper layer over an EmptyArray
leaf. -/
theorem contents_wrapper_depth_le_max_depth_witness :
    ContentsGen ⟨3, true, true, true, true, false, true, false, 1⟩
        (.listOffset false (offsetsFrom (Content.emptyLeaf).length 0 []) .emptyLeaf) ∧
      (Content.listOffset false (offsetsFrom (Content.emptyLeaf).length 0 [])
        .emptyLeaf).wrapperDepth ≤ 1 :=
  have hleaf : LeafContentsGen
      (ContentsOpts.leafOpts ⟨3, true, true, true, true, false, true, false, 1⟩) 0 3
      Content.emptyLeaf := .empty (by decide) (by decide)
  have hchild : BuildR ⟨3, true, true, true, true, false, true, false, 1⟩ 1 ⟨3, 0, 0⟩
      Content.emptyLeaf (cdStep ⟨3, 0, 0⟩ (Content.emptyLeaf).length) :=
    @BuildR.leafDrawn ⟨3, true, true, true, true, false, true, false, 1⟩ 1 ⟨3, 0, 0⟩ 0 3
      Content.emptyLeaf (by decide) hleaf
  have hlo : ListOffsetGen 5 Content.emptyLeaf 0
      (.listOffset false (offsetsFrom (Content.emptyLeaf).length 0 []) .emptyLeaf) :=
    .mk 0 [] (by decide) (by decide) (by simp) (by simp)
  have hb : BuildR ⟨3, true, true, true, true, false, true, false, 1⟩ 0 ⟨3, 0, 0⟩
      (.listOffset false (offsetsFrom (Content.emptyLeaf).length 0 []) .emptyLeaf)
      (cdStep ⟨3, 0, 0⟩ (Content.emptyLeaf).length) :=
    .wrap (by decide) hchild (.listOffset (by decide) hlo)
  have hgen : ContentsGen ⟨3, true, true, true, true, false, true, false, 1⟩
      (.listOffset false (offsetsFrom (Content.emptyLeaf).length 0 []) .emptyLeaf) :=
    .build (by decide) (by decide) (by decide) (by decide) hb
  ⟨hgen, contents_wrapper_depth_le_max_depth hgen⟩

/-! ### UnionArray — `strategies/contents/union_array.py` -/

/-- Pre-permutation `(tag, local_index)` pairs built by `union_array_contents`
from the child lengths: for child `k` of length `L`, the pairs `(k, 0)` ..
`(k, L-1)`, concatenated in child order (`tags_parts` zipped with
`index_parts`). -/
def unionBasePairs (lens : List Nat) : List (Nat × Nat) :=
  (lens.enum.map (fun kl => (List.range kl.2).map (fun i => (kl.1, i)))).flatten

/-- Possible `(tags, index)` arrays produced by `union_array_contents` from a
concrete child list with the given lengths and no `max_length`: the base pairs
are shuffled by one drawn permutation of their positions and not truncated. -/
def UnionGenConcrete (lens : List Nat) (tags index : List Nat) : Prop :=
  ∃ ps : List (Nat × Nat), ps.Perm (unionBasePairs lens) ∧
    tags = ps.map Prod.fst ∧ index = ps.map Prod.snd

theorem unionGen_zip_eq {tags index : List Nat} {ps : List (Nat × Nat)}
    (ht : tags = ps.map Prod.fst) (hi : index = ps.map Prod.snd) :
    tags.zip index = ps := by
  subst ht hi
  have := List.zip_unzip ps
  rwa [List.unzip_eq_map] at this

/-- C8: over exactly 2 concrete children of lengths 3 and 4 with no
`max_length`, `union_array_contents` yields a tags array of length 7 with
exactly three 0-tags and four 1-tags, and the index entries at the positions
carrying tag `k` are a permutation of `0..len(children[k])-1`. -/
theorem union_two_children_tags_index {tags index : List Nat}
    (h : UnionGenConcrete [3, 4] tags index) :
    tags.length = 7 ∧ tags.count 0 = 3 ∧ tags.count 1 = 4 ∧
    (((tags.zip index).filter (fun p => p.1 == 0)).map Prod.snd).Perm (List.range 3) ∧
    (((tags.zip index).filter (fun p => p.1 == 1)).map Prod.snd).Perm (List.range 4) := by
  obtain ⟨ps, hperm, ht, hi⟩ := h
  have hzip : tags.zip index = ps := unionGen_zip_eq ht hi
  have hlen : ps.length = 7 := by
    rw [hperm.length_eq]
    decide
  refine ⟨?_, ?_, ?_, ?_, ?_⟩
  · rw [ht, List.length_map, hlen]
  · rw [ht, (hperm.map Prod.fst).count_eq]
    decide
  · rw [ht, (hperm.map Prod.fst).count_eq]
    decide
  · rw [hzip]
    have hf := (hperm.filter (fun p => p.1 == 0)).map Prod.snd
    have heq : ((unionBasePairs [3, 4]).filter (fun p => p.1 == 0)).map Prod.snd =
        List.range 3 := by decide
    rwa [heq] at hf
  · rw [hzip]
    have hf := (hperm.filter (fun p => p.1 == 1)).map Prod.snd
    have heq : ((unionBasePairs [3, 4]).filter (fun p => p.1 == 1)).map Prod.snd =
        List.range 4 := by decide
    rwa [heq] at hf

/-- Witness for C8: the identity permutation, giving tags `[0,0,0,1,1,1,1]`
and index `[0,1,2,0,1,2,3]`. -/
theorem union_two_children_tags_index_witness :
    UnionGenConcrete [3, 4] [0, 0, 0, 1, 1, 1, 1] [0, 1, 2, 0, 1, 2, 3] ∧
      ([0, 0, 0, 1, 1, 1, 1] : List Nat).length = 7 ∧
      ([0, 0, 0, 1, 1, 1, 1] : List Nat).count 0 = 3 ∧
      ([0, 0, 0, 1, 1, 1, 1] : List Nat).count 1 = 4 ∧
      (((([0, 0, 0, 1, 1, 1, 1] : List Nat).zip ([0, 1, 2, 0, 1, 2, 3] : List Nat)).filter
        (fun p => p.1 == 0)).map Prod.snd).Perm (List.range 3) ∧
      (((([0, 0, 0, 1, 1, 1, 1] : List Nat).zip ([0, 1, 2, 0, 1, 2, 3] : List Nat)).filter
        (fun p => p.1 == 1)).map Prod.snd).Perm (List.range 4) :=
  have hgen : UnionGenConcrete [3, 4] [0, 0, 0, 1, 1, 1, 1] [0, 1, 2, 0, 1, 2, 3] :=
    ⟨unionBasePairs [3, 4], List.Perm.refl _, by decide, by decide⟩
  ⟨hgen, union_two_children_tags_index hgen⟩

/-! ### Draw recorders — `strategies/misc/record.py` -/

/-- State of a `RecordDraws` wrapper: the wrapped base strategy (kept opaque)
and the `drawn` log. -/
structure RecordDraws (v b : Type) where
  base : b
  drawn : List v

/-- One `do_draw` through a `RecordDraws`: the value the base strategy
produced is appended to the log and returned. -/
def RecordDraws.doDraw {v b : Type} (r : RecordDraws v b) (x : v) : RecordDraws v b :=
  ⟨r.base, r.drawn ++ [x]⟩

/-- State of a `RecordCallDraws` wrapper: the wrapped factory and the `drawn`
logs of the sub-recorders created so far, in creation order. -/
structure RecordCallDraws (v b : Type) where
  base : b
  recorders : List (List v)

/-- Invoking the wrapped factory (`__call__`): a fresh sub-recorder with an
empty log is created and tracked. -/
def RecordCallDraws.call {v b : Type} (r : RecordCallDraws v b) : RecordCallDraws v b :=
  ⟨r.base, r.recorders ++ [[]]⟩

/-- One draw through the sub-recorder created `i`-th: the value is appended to
that sub-recorder's log. -/
def RecordCallDraws.drawAt {v b : Type} (r : RecordCallDraws v b) (i : Nat) (x : v) :
    RecordCallDraws v b :=
  ⟨r.base, r.recorders.set i ((r.recorders.getD i []) ++ [x])⟩

/-- The pooled `drawn` property: all values drawn across all calls, in order. -/
def RecordCallDraws.drawnAll {v b : Type} (r : RecordCallDraws v b) : List v :=
  r.recorders.flatten

/-- `reset()`: the tracked sub-recorders are cleared; the wrapped factory is
kept. -/
def RecordCallDraws.reset {v b : Type} (r : RecordCallDraws v b) : RecordCallDraws v b :=
  ⟨r.base, []⟩

/-- C9: resetting a draw recorder clears its recorded log to empty while
keeping the wrapping, and a single subsequent draw through the recorder
(a fresh factory call followed by one draw, for the chained variant; one
`do_draw`, for the plain variant, which appends exactly one entry) leaves a
log of exactly that one new value. -/
theorem recorder_reset_clears_and_draw_appends_one {v b : Type}
    (r : RecordCallDraws v b) (rd : RecordDraws v b) (x : v) :
    r.reset.drawnAll = [] ∧ r.reset.base = r.base ∧
    (r.reset.call.drawAt 0 x).drawnAll = [x] ∧
    (r.reset.call.drawAt 0 x).base = r.base ∧
    (rd.doDraw x).drawn = rd.drawn ++ [x] ∧ (rd.doDraw x).base = rd.base := by
  refine ⟨rfl, rfl, ?_, rfl, rfl, rfl⟩
  simp [RecordCallDraws.reset, RecordCallDraws.call, RecordCallDraws.drawAt,
    RecordCallDraws.drawnAll]

/-! ### NumpyArray buffers and the NaN/NaT scan — `util/numpy.py` and
`strategies/numpy/numpy.py` -/

/-- Values of the NumPy scalar model: float/complex values carry an is-NaN
flag, datetime/timedelta values an is-NaT flag, structured values a field
list, and sub-array values an element list. -/
inductive NpValue where
  | boolV (x : Bool)
  | intV (n : Int)
  | floatV (isNaN : Bool)
  | complexV (isNaN : Bool)
  | datetimeV (isNaT : Bool)
  | timedeltaV (isNaT : Bool)
  | recordV (fields : List NpValue)
  | subarrV (elems : List NpValue)

mutual

/-- Embedding of `any_nan_in_numpy_array`: float and complex kinds are
checked with `isnan`, structured kinds recurse field by field (sub-array
fields are scanned elementwise, as NumPy flattens them under the base kind). -/
def npHasNaN : NpValue → Bool
  | .floatV f => f
  | .complexV f => f
  | .recordV fs => npHasNaNList fs
  | .subarrV es => npHasNaNList es
  | _ => false

/-- Elementwise disjunction of `npHasNaN` over a field or element list. -/
def npHasNaNList : List NpValue → Bool
  | [] => false
  | x :: xs => npHasNaN x || npHasNaNList xs

end

mutual

/-- Embedding of `any_nat_in_numpy_array`: datetime and timedelta kinds are
checked with `isnat`, structured kinds recurse field by field. -/
def npHasNaT : NpValue → Bool
  | .datetimeV f => f
  | .timedeltaV f => f
  | .recordV fs => npHasNaTList fs
  | .subarrV es => npHasNaTList es
  | _ => false

/-- Elementwise disjunction of `npHasNaT` over a field or element list. -/
def npHasNaTList : List NpValue → Bool
  | [] => false
  | x :: xs => npHasNaT x || npHasNaTList xs

end

/-- Embedding of `any_nan_nat_in_numpy_array` over a buffer of values. -/
def anyNanNatInNumpyArray (buf : List NpValue) : Bool :=
  buf.any npHasNaN || buf.any npHasNaT

theorem npHasNaNList_eq_false {fs : List NpValue} :
    npHasNaNList fs = false ↔ ∀ x ∈ fs, npHasNaN x = false := by
  induction fs with
  | nil => simp [npHasNaNList]
  | cons x xs ih => simp [npHasNaNList, ih]

theorem npHasNaTList_eq_false {fs : List NpValue} :
    npHasNaTList fs = false ↔ ∀ x ∈ fs, npHasNaT x = false := by
  induction fs with
  | nil => simp [npHasNaTList]
  | cons x xs ih => simp [npHasNaTList, ih]

/-- Modelled from the spec: the element draws of the sized `numpy_arrays`
strategy (absent from the sources; `elements={'allow_nan': allow_nan}` is
forwarded to the external engine's array strategy).  With `allow_nan=False`
the scalar strategies for the kinds that have a sentinel (float, complex,
datetime, timedelta) never produce it, and structured/sub-array values are
built from recursively drawn components. -/
inductive NpElemGen (an : Bool) : NpValue → Prop
  | boolG (x : Bool) : NpElemGen an (.boolV x)
  | intG (n : Int) : NpElemGen an (.intV n)
  | floatG (f : Bool) : (an = false → f = false) → NpElemGen an (.floatV f)
  | complexG (f : Bool) : (an = false → f = false) → NpElemGen an (.complexV f)
  | datetimeG (f : Bool) : (an = false → f = false) → NpElemGen an (.datetimeV f)
  | timedeltaG (f : Bool) : (an = false → f = false) → NpElemGen an (.timedeltaV f)
  | recordG (fs : List NpValue) : (∀ x ∈ fs, NpElemGen an x) →
      NpElemGen an (.recordV fs)
  | subarrG (es : List NpValue) : (∀ x ∈ es, NpElemGen an x) →
      NpElemGen an (.subarrV es)

/-- Buffer of a NumpyArray leaf generated by the `numpy_arrays` strategy:
every element is generated by the element strategy for its dtype kind. -/
def NumpyArraysGen (allowNan : Bool) (buf : List NpValue) : Prop :=
  ∀ x ∈ buf, NpElemGen allowNan x

theorem npElemGen_false_no_sentinel {x : NpValue} (h : NpElemGen false x) :
    npHasNaN x = false ∧ npHasNaT x = false := by
  induction h with
  | boolG => simp [npHasNaN, npHasNaT]
  | intG => simp [npHasNaN, npHasNaT]
  | floatG f hf => simp [npHasNaN, npHasNaT, hf rfl]
  | complexG f hf => simp [npHasNaN, npHasNaT, hf rfl]
  | datetimeG f hf => simp [npHasNaN, npHasNaT, hf rfl]
  | timedeltaG f hf => simp [npHasNaN, npHasNaT, hf rfl]
  | recordG fs hf ih =>
    simp only [npHasNaN, npHasNaT, npHasNaNList_eq_false, npHasNaTList_eq_false]
    exact ⟨fun x hx => (ih x hx).1, fun x hx => (ih x hx).2⟩
  | subarrG es he ih =>
    simp only [npHasNaN, npHasNaT, npHasNaNList_eq_false, npHasNaTList_eq_false]
    exact ⟨fun x hx => (ih x hx).1, fun x hx => (ih x hx).2⟩

/-- C4: the buffer of every NumpyArray leaf generated with `allow_nan=False`
contains no NaN (float/complex kinds) and no NaT (datetime/timedelta kinds),
recursively through structured and sub-array dtype fields: the scan
`any_nan_nat_in_numpy_array` reports `false`. -/
theorem numpy_arrays_allow_nan_false_clean {buf : List NpValue}
    (h : NumpyArraysGen false buf) : anyNanNatInNumpyArray buf = false := by
  unfold anyNanNatInNumpyArray
  rw [Bool.or_eq_false_iff, List.any_eq_false, List.any_eq_false]
  exact ⟨fun x hx => by simp [(npElemGen_false_no_sentinel (h x hx)).1],
    fun x hx => by simp [(npElemGen_false_no_sentinel (h x hx)).2]⟩

/-- Witness for C4: a buffer with a non-NaN float, a structured value holding
an int and a non-NaT datetime, and a sub-array of non-NaN complex values. -/
theorem numpy_arrays_allow_nan_false_clean_witness :
    NumpyArraysGen false
        [.floatV false, .recordV [.intV 3, .datetimeV false], .subarrV [.complexV false]] ∧
      anyNanNatInNumpyArray
        [.floatV false, .recordV [.intV 3, .datetimeV false], .subarrV [.complexV false]] =
        false :=
  have hgen : NumpyArraysGen false
      [.floatV false, .recordV [.intV 3, .datetimeV false], .subarrV [.complexV false]] := by
    intro x hx
    fin_cases hx
    · exact .floatG false (fun _ => rfl)
    · refine .recordG _ ?_
      intro y hy
      fin_cases hy
      · exact .intG 3
      · exact .datetimeG false (fun _ => rfl)
    · refine .subarrG _ ?_
      intro y hy
      fin_cases hy
      exact .complexG false (fun _ => rfl)
  ⟨hgen, numpy_arrays_allow_nan_false_clean hgen⟩

end HypothesisAwkward
